import Mathlib

/-!
Verification development for the multi-source documentation ingester
(`data_ingestion.py`): a `Document` record type, two frontier-based crawlers
(`ReadTheDocsIngester`, `WebsiteIngester`), a GitHub repository fetcher
(`GitHubIngester`), and JSON persistence (`save_documents`).

The embedding is shallow: the parsed-markup collaborator (BeautifulSoup) is
modelled by an explicit tree type with document-order (pre-order) queries,
matching the black-box parser contract (find first element by predicate,
find all, `get_text(separator, strip)`, node removal).  A found element is
treated as truthy in the Python `or`-chains, so the chains become `Option`
alternation.  Network calls are modelled as environment functions returning
`Option` (with `none` for a raised network/timeout error) together with an
HTTP status where the code inspects one.  The crawl loops are embedded as
fuel-indexed structural recursions: every safety claim is proved for every
fuel value, hence at every reachable point of the Python `while` loop.
-/

/-- Characters stripped by Python/BeautifulSoup whitespace stripping. -/
def isSpaceChar (c : Char) : Bool :=
  c = ' ' || c = '\t' || c = '\n' || c = '\r' || c = '\x0b' || c = '\x0c'

/-- Python `str.strip()` / BeautifulSoup `strip=True` on one string. -/
def stripStr (s : String) : String :=
  ⟨((s.data.dropWhile isSpaceChar).reverse.dropWhile isSpaceChar).reverse⟩

/-- `base_url.rstrip('/')` from `ReadTheDocsIngester.__init__`. -/
def rstripSlash (s : String) : String :=
  ⟨(s.data.reverse.dropWhile (fun c => c = '/')).reverse⟩

/-- Bool-valued list-prefix test (needle, haystack). -/
def isPrefixB : List Char → List Char → Bool
  | [], _ => true
  | _ :: _, [] => false
  | a :: as, b :: bs => a = b && isPrefixB as bs

/-- Bool-valued substring test on char lists (needle, haystack); models
Python `needle in haystack` and `re.search` of a literal alternative. -/
def isInfixB (n : List Char) : List Char → Bool
  | [] => n.isEmpty
  | c :: rest => isPrefixB n (c :: rest) || isInfixB n rest

/-- Python `haystack_string.__contains__(needle)`. -/
def strContains (haystack needle : String) : Bool :=
  isInfixB needle.data haystack.data

/-- Python `s.endswith(suf)`. -/
def strEndsWithB (s suf : String) : Bool :=
  isPrefixB suf.data.reverse s.data.reverse

/-- One collapsed run of `k` pending newlines, as emitted by
`re.sub(r'\n\x7b3,\x7d', '\n\n', content)`: a run of three or more
newlines is replaced by exactly two, shorter runs are kept. -/
def emitNlRun (k : Nat) : List Char :=
  if 3 ≤ k then ['\n', '\n'] else List.replicate k '\n'

/-- Left-to-right scan implementing the `re.sub` above; `k` counts the
newline run currently being read. -/
def collapseNlAux (k : Nat) : List Char → List Char
  | [] => emitNlRun k
  | c :: rest =>
    if c = '\n' then collapseNlAux (k + 1) rest
    else emitNlRun k ++ c :: collapseNlAux 0 rest

/-- `content = re.sub(r'\n\x7b3,\x7d', '\n\n', content)` (both
`_scrape_page` methods). -/
def collapseNewlines (s : String) : String :=
  ⟨collapseNlAux 0 s.data⟩

/-- Detects three consecutive newline characters. -/
def hasTripleNl : List Char → Bool
  | a :: b :: c :: rest =>
    (a = '\n' && b = '\n' && c = '\n') || hasTripleNl (b :: c :: rest)
  | _ => false

/-- Parsed markup node: a text node or an element with tag, attributes and
children (the parser collaborator's tree). -/
inductive HtmlTree where
  | text (s : String)
  | elem (tag : String) (attrs : List (String × String)) (children : List HtmlTree)

/-- A parsed page (`BeautifulSoup` object): its top-level nodes. -/
abbrev Soup := List HtmlTree

namespace HtmlTree

/-- Attribute lookup on an element (`tag['attr']` / keyword filters). -/
def attr : HtmlTree → String → Option String
  | .text _, _ => none
  | .elem _ attrs _, a => (attrs.find? (fun p => p.1 = a)).map (fun p => p.2)

/-- Tag-name test. -/
def tagIs : HtmlTree → String → Bool
  | .text _, _ => false
  | .elem t _ _, name => t = name

end HtmlTree

mutual

/-- All nodes of a tree in document (pre-order) order. -/
def preorderT : HtmlTree → List HtmlTree
  | .text s => [.text s]
  | .elem t a cs => .elem t a cs :: preorderL cs

/-- All nodes of a forest in document (pre-order) order. -/
def preorderL : List HtmlTree → List HtmlTree
  | [] => []
  | c :: cs => preorderT c ++ preorderL cs

end

mutual

/-- `soup.find(...)` restricted to one subtree: first node satisfying `p`
in document order, searching the node itself then its descendants. -/
def findFirstT (p : HtmlTree → Bool) : HtmlTree → Option HtmlTree
  | .text s => if p (.text s) then some (.text s) else none
  | .elem t a cs =>
    if p (.elem t a cs) then some (.elem t a cs) else findFirstL p cs

/-- `soup.find(...)` over a forest. -/
def findFirstL (p : HtmlTree → Bool) : List HtmlTree → Option HtmlTree
  | [] => none
  | c :: cs =>
    match findFirstT p c with
    | some r => some r
    | none => findFirstL p cs

end

/-- `soup.find(...)` on a parsed page. -/
def soupFind (p : HtmlTree → Bool) (s : Soup) : Option HtmlTree :=
  findFirstL p s

/-- `soup.find_all(...)` on a parsed page: all matches in document order. -/
def soupFindAll (p : HtmlTree → Bool) (s : Soup) : List HtmlTree :=
  (preorderL s).filter p

mutual

/-- Text-node strings of a subtree in document order. -/
def textNodesT : HtmlTree → List String
  | .text s => [s]
  | .elem _ _ cs => textNodesL cs

/-- Text-node strings of a forest in document order. -/
def textNodesL : List HtmlTree → List String
  | [] => []
  | c :: cs => textNodesT c ++ textNodesL cs

end

/-- Join strings with a separator. -/
def joinSep (sep : String) : List String → String
  | [] => ""
  | [x] => x
  | x :: y :: rest => x ++ sep ++ joinSep sep (y :: rest)

/-- `node.get_text(separator=sep, strip=True)`: each descendant string is
stripped, empty results are dropped, the rest joined by `sep`. -/
def getTextStrip (sep : String) (t : HtmlTree) : String :=
  joinSep sep (((textNodesT t).map stripStr).filter (fun s => ¬ s = ""))

mutual

/-- `element.decompose()` applied to every element whose tag is in `tags`
(the removed subtree disappears entirely); one subtree. -/
def removeTagsT (tags : List String) : HtmlTree → Option HtmlTree
  | .text s => some (.text s)
  | .elem t a cs =>
    if t ∈ tags then none else some (.elem t a (removeTagsL tags cs))

/-- Tag removal over a forest. -/
def removeTagsL (tags : List String) : List HtmlTree → List HtmlTree
  | [] => []
  | c :: cs =>
    match removeTagsT tags c with
    | none => removeTagsL tags cs
    | some c' => c' :: removeTagsL tags cs

end

/-- Metadata values appearing in the source: strings and ints. -/
inductive MetaVal where
  | str (s : String)
  | num (n : Nat)
deriving DecidableEq, Repr

/-- The `Document` dataclass (fields in declaration order). -/
structure Document where
  source : String
  url : String
  title : String
  content : String
  metadata : List (String × MetaVal)
deriving DecidableEq, Repr

/-- `div` with `role="main"` (`soup.find('div', role='main')`). -/
def isDivRoleMain (t : HtmlTree) : Bool :=
  t.tagIs "div" && t.attr "role" == some "main"

/-- `soup.find('div', class_=re.compile(alts))`: a `div` whose class
attribute contains (case-sensitively) one of the literal alternatives. -/
def isDivClassMatch (alts : List String) (t : HtmlTree) : Bool :=
  t.tagIs "div" &&
    match t.attr "class" with
    | some c => alts.any (fun k => isInfixB k.data c.data)
    | none => false

/-- Tags decomposed by `ReadTheDocsIngester._scrape_page`. -/
def rtdStripTags : List String := ["nav", "footer", "script", "style", "aside"]

/-- Tags decomposed by `WebsiteIngester._scrape_page` (also `header`). -/
def websiteStripTags : List String :=
  ["nav", "footer", "script", "style", "aside", "header"]

/-- Main-content chain of `ReadTheDocsIngester._scrape_page`:
`soup.find('div', role='main') or soup.find('main') or soup.find('article')
or soup.find('div', class_=re.compile('content|document|body'))`. -/
def rtdSelectContent (s : Soup) : Option HtmlTree :=
  ((soupFind isDivRoleMain s).orElse fun _ =>
    (soupFind (fun t => t.tagIs "main") s).orElse fun _ =>
      (soupFind (fun t => t.tagIs "article") s).orElse fun _ =>
        soupFind (isDivClassMatch ["content", "document", "body"]) s)

/-- Main-content chain of `WebsiteIngester._scrape_page`:
`soup.find('main') or soup.find('article') or
soup.find('div', class_=re.compile('content|main|article|body'))`. -/
def websiteSelectContent (s : Soup) : Option HtmlTree :=
  ((soupFind (fun t => t.tagIs "main") s).orElse fun _ =>
    (soupFind (fun t => t.tagIs "article") s).orElse fun _ =>
      soupFind (isDivClassMatch ["content", "main", "article", "body"]) s)

/-- The selected chain with the `if not main_content: main_content =
soup.body` fallback, doc-site variant. -/
def rtdSelectWithBody (s : Soup) : Option HtmlTree :=
  (rtdSelectContent s).orElse fun _ => soupFind (fun t => t.tagIs "body") s

/-- The selected chain with the body fallback, website variant. -/
def websiteSelectWithBody (s : Soup) : Option HtmlTree :=
  (websiteSelectContent s).orElse fun _ => soupFind (fun t => t.tagIs "body") s

/-- Split a char list at every occurrence of `sep` (Python `str.split` on
a one-character separator: always at least one piece). -/
def splitCharAux (sep : Char) (acc : List Char) : List Char → List (List Char)
  | [] => [acc.reverse]
  | c :: rest =>
    if c = sep then acc.reverse :: splitCharAux sep [] rest
    else splitCharAux sep (c :: acc) rest

/-- Python `url.split('/')[-1]`. -/
def lastPathSegment (url : String) : String :=
  ⟨(splitCharAux '/' [] url.data).getLastD []⟩

/-- Title extraction shared by both `_scrape_page` methods: first `h1`
text, else `<title>` text, else the url's last path segment. -/
def extractTitle (s : Soup) (url : String) : String :=
  match soupFind (fun t => t.tagIs "h1") s with
  | some h => getTextStrip "" h
  | none =>
    match soupFind (fun t => t.tagIs "title") s with
    | some t => getTextStrip "" t
    | none => lastPathSegment url

/-- `ReadTheDocsIngester._scrape_page` after a successful fetch+parse:
strip chrome tags, select a content root (falling back to `soup.body`),
extract title and text, collapse newline runs.  Returns `none` when no
content root and no `body` exist: the Python code then calls
`None.get_text(...)`, raising an `AttributeError` (no document). -/
def rtdScrapePage (url now : String) (page : Soup) : Option Document :=
  let s := removeTagsL rtdStripTags page
  match rtdSelectWithBody s with
  | none => none
  | some root =>
    let title := extractTitle s url
    let content := collapseNewlines (getTextStrip "\n" root)
    some { source := "readthedocs", url := url, title := title,
           content := content,
           metadata := [("scraped_at", .str now),
                        ("content_length", .num content.length)] }

/-- `WebsiteIngester._scrape_page` after a successful fetch+parse.  Here
the missing-root case is guarded (`... if main_content else ''`), so a
document with empty content is produced. -/
def websiteScrapePage (url now : String) (page : Soup) : Document :=
  let s := removeTagsL websiteStripTags page
  let title := extractTitle s url
  let raw :=
    match websiteSelectWithBody s with
    | some root => getTextStrip "\n" root
    | none => ""
  let content := collapseNewlines raw
  { source := "website", url := url, title := title, content := content,
    metadata := [("scraped_at", .str now),
                 ("content_length", .num content.length)] }

/-- The network as seen by a crawler: for each url, `none` when `requests.get`
raises (timeout/connection error), otherwise the HTTP status code and the
parsed response body. -/
abbrev Web := String → Option (Nat × Soup)

/-- Content fetch of `ReadTheDocsIngester._scrape_page`: `requests.get(url,
timeout=10)` then `response.raise_for_status()` (raises for status ≥ 400,
caught by the crawl loop), then extraction. -/
def rtdScrapeReq (web : Web) (now url : String) : Option Document :=
  match web url with
  | none => none
  | some (status, page) =>
    if status < 400 then rtdScrapePage url now page else none

/-- Content fetch of `WebsiteIngester._scrape_page` (same fetch contract;
the extraction itself is total). -/
def websiteScrapeReq (web : Web) (now url : String) : Option Document :=
  match web url with
  | none => none
  | some (status, page) =>
    if status < 400 then some (websiteScrapePage url now page) else none

/-- `href` values of all `<a href=...>` elements, in document order
(`soup.find_all('a', href=True)`). -/
def collectHrefs (s : Soup) : List String :=
  (soupFindAll (fun t => t.tagIs "a" && (t.attr "href").isSome) s).filterMap
    (fun t => t.attr "href")

/-- `ReadTheDocsIngester._find_doc_links`: re-fetch the page (no status
check), join each href against the current url, keep same-domain urls
without `#` and without any of the deny substrings, deduplicate
(`list(set(links))`; the Python set iteration order is unspecified, we keep
first occurrences).  Any fetch error yields `[]`. -/
def rtdFindDocLinks (web : Web) (ujoin : String → String → String)
    (netloc : String → String) (baseUrl current : String) : List String :=
  match web current with
  | none => []
  | some (_, page) =>
    ((collectHrefs page).filterMap (fun href =>
      let full := ujoin current href
      if netloc full = netloc baseUrl then
        if ¬ strContains full "#" &&
            ¬ (["search", "genindex", "_static"].any (fun x => strContains full x)) then
          some full
        else none
      else none)).eraseDups

/-- `WebsiteIngester._find_links`: like the above but the filter keeps urls
whose domain is in the allow-list, with no deny substrings. -/
def websiteFindLinks (web : Web) (ujoin : String → String → String)
    (netloc : String → String) (allowedDomains : List String)
    (current : String) : List String :=
  match web current with
  | none => []
  | some (_, page) =>
    ((collectHrefs page).filterMap (fun href =>
      let full := ujoin current href
      if netloc full ∈ allowedDomains then
        if ¬ strContains full "#" then some full else none
      else none)).eraseDups

/-- The `while to_visit and len(documents) < max_pages` loop of
`ReadTheDocsIngester.get_all_docs`, fuel-indexed (each fuel step is one
iteration; the loop body: pop, skip if visited, mark visited, scrape —
`none` models the caught per-url exception — append the document, extend
the queue with newly discovered unvisited links).  Returns the documents
and the final visited set (as a duplicate-free list). -/
def rtdCrawl (scrape : String → Option Document)
    (findLinks : String → List String) (maxPages : Nat) :
    Nat → List String → List String → List Document →
    List Document × List String
  | 0, visited, _, documents => (documents, visited)
  | fuel + 1, visited, toVisit, documents =>
    match toVisit with
    | [] => (documents, visited)
    | url :: rest =>
      if documents.length < maxPages then
        if url ∈ visited then
          rtdCrawl scrape findLinks maxPages fuel visited rest documents
        else
          let visited' := url :: visited
          match scrape url with
          | none =>
            rtdCrawl scrape findLinks maxPages fuel visited' rest documents
          | some doc =>
            rtdCrawl scrape findLinks maxPages fuel visited'
              (rest ++ (findLinks url).filter (fun u => ¬ u ∈ visited'))
              (documents ++ [doc])
      else (documents, visited)

/-- The loop of `WebsiteIngester.get_all_docs`: identical to the doc-site
loop except that after the visited check, a url whose domain is not in the
allow-list is skipped (`continue`) without being marked visited. -/
def websiteCrawl (scrape : String → Option Document)
    (findLinks : String → List String) (netloc : String → String)
    (allowedDomains : List String) (maxPages : Nat) :
    Nat → List String → List String → List Document →
    List Document × List String
  | 0, visited, _, documents => (documents, visited)
  | fuel + 1, visited, toVisit, documents =>
    match toVisit with
    | [] => (documents, visited)
    | url :: rest =>
      if documents.length < maxPages then
        if url ∈ visited then
          websiteCrawl scrape findLinks netloc allowedDomains maxPages fuel
            visited rest documents
        else if netloc url ∈ allowedDomains then
          let visited' := url :: visited
          match scrape url with
          | none =>
            websiteCrawl scrape findLinks netloc allowedDomains maxPages fuel
              visited' rest documents
          | some doc =>
            websiteCrawl scrape findLinks netloc allowedDomains maxPages fuel
              visited'
              (rest ++ (findLinks url).filter (fun u => ¬ u ∈ visited'))
              (documents ++ [doc])
        else
          websiteCrawl scrape findLinks netloc allowedDomains maxPages fuel
            visited rest documents
      else (documents, visited)

/-- `ReadTheDocsIngester.get_all_docs` seeded with the constructor's
`base_url.rstrip('/')`, over abstract `urljoin`/`urlparse(·).netloc`. -/
def rtdGetAllDocs (web : Web) (ujoin : String → String → String)
    (netloc : String → String) (baseUrlRaw : String) (maxPages : Nat)
    (now : String) (fuel : Nat) : List Document × List String :=
  let base := rstripSlash baseUrlRaw
  rtdCrawl (rtdScrapeReq web now) (rtdFindDocLinks web ujoin netloc base)
    maxPages fuel [] [base] []

/-- `allowed_domains or [urlparse(start_url).netloc]` from
`WebsiteIngester.__init__` (`None` and the empty list both fall back). -/
def websiteAllowedDomains (cfg : Option (List String))
    (netloc : String → String) (startUrl : String) : List String :=
  match cfg with
  | some (a :: rest) => a :: rest
  | _ => [netloc startUrl]

/-- `WebsiteIngester.get_all_docs` seeded with `start_url`. -/
def websiteGetAllDocs (web : Web) (ujoin : String → String → String)
    (netloc : String → String) (cfg : Option (List String))
    (startUrl : String) (maxPages : Nat) (now : String) (fuel : Nat) :
    List Document × List String :=
  let allowed := websiteAllowedDomains cfg netloc startUrl
  websiteCrawl (websiteScrapeReq web now)
    (websiteFindLinks web ujoin netloc allowed) netloc allowed maxPages fuel
    [] [startUrl] []

/-- Response to the `GET <api_base>/readme` metadata call: HTTP status and
the `download_url` / `html_url` fields of the returned JSON. -/
structure ReadmeResp where
  status : Nat
  downloadUrl : String
  htmlUrl : String

/-- One entry of a `GET <api_base>/contents/<path>` listing
(`{type, name, path, download_url, html_url}`). -/
structure GhItem where
  type : String
  name : String
  path : String
  downloadUrl : String
  htmlUrl : String

/-- Response to a directory-listing call: HTTP status and entries. -/
structure GhListing where
  status : Nat
  items : List GhItem

/-- The GitHub API as seen by `GitHubIngester`: `none` models a raised
network error for the respective `requests.get`. -/
structure GhEnv where
  readme : Option ReadmeResp
  fetchText : String → Option String
  listing : String → Option GhListing

/-- `GitHubIngester._get_readme`: metadata call (timeout 10, raises for
status ≥ 400), then a raw-content fetch of `download_url` (no timeout).
Every exception is caught and yields `None`. -/
def ghGetReadme (env : GhEnv) (owner repoName now : String) :
    Option Document :=
  match env.readme with
  | none => none
  | some r =>
    if r.status < 400 then
      match env.fetchText r.downloadUrl with
      | none => none
      | some content =>
        some { source := "github", url := r.htmlUrl,
               title := repoName ++ " - README", content := content,
               metadata := [("type", .str "readme"),
                            ("repo", .str (owner ++ "/" ++ repoName)),
                            ("scraped_at", .str now)] }
    else none

/-- `GitHubIngester._get_wiki_pages`: explicitly unimplemented, always the
empty list. -/
def ghGetWikiPages : List Document := []

/-- `item['name'].endswith(('.md', '.markdown', '.rst'))`. -/
def ghIsDocFileName (name : String) : Bool :=
  strEndsWithB name ".md" || strEndsWithB name ".markdown" ||
    strEndsWithB name ".rst"

/-- The `for item in items` loop of `GitHubIngester._get_docs_directory`.
A matching file is fetched (`requests.get(download_url).text`, no timeout);
if that fetch raises, the exception is caught by the enclosing `try`, so
the documents collected so far at this level are returned and the
remaining items of this directory are dropped.  A `dir` entry recurses via
`recurse` (the ingester at one less fuel), whose own `try` confines its
failures. -/
def ghDocsItems (recurse : String → List Document)
    (fetchText : String → Option String) (owner repoName now : String) :
    List GhItem → List Document
  | [] => []
  | item :: rest =>
    if item.type = "file" ∧ ghIsDocFileName item.name then
      match fetchText item.downloadUrl with
      | none => []
      | some content =>
        { source := "github", url := item.htmlUrl, title := item.name,
          content := content,
          metadata := [("type", .str "docs_file"),
                       ("repo", .str (owner ++ "/" ++ repoName)),
                       ("path", .str item.path),
                       ("scraped_at", .str now)] }
          :: ghDocsItems recurse fetchText owner repoName now rest
    else if item.type = "dir" then
      recurse item.path ++ ghDocsItems recurse fetchText owner repoName now rest
    else ghDocsItems recurse fetchText owner repoName now rest

/-- `GitHubIngester._get_docs_directory(path)`: listing call (timeout 10);
status 404 returns `[]` immediately; any other status ≥ 400 makes
`raise_for_status` raise, caught by the `try`, returning `[]`; otherwise
the items are processed.  The recursion depth is fuel-indexed (the Python
recursion is bounded by the repository's directory depth). -/
def ghDocsDirectory (env : GhEnv) (owner repoName now : String) :
    Nat → String → List Document
  | 0, _ => []
  | fuel + 1, path =>
    match env.listing path with
    | none => []
    | some resp =>
      if resp.status = 404 then []
      else if 400 ≤ resp.status then []
      else
        ghDocsItems (ghDocsDirectory env owner repoName now fuel)
          env.fetchText owner repoName now resp.items

/-- `GitHubIngester.get_all_docs`: readme (if any), wiki pages (always
empty), then the `docs` directory. -/
def ghGetAllDocs (env : GhEnv) (owner repoName now : String) (fuel : Nat) :
    List Document :=
  (match ghGetReadme env owner repoName now with
   | some r => [r]
   | none => []) ++
    ghGetWikiPages ++ ghDocsDirectory env owner repoName now fuel "docs"

/-- JSON values produced by `json.dump(..., ensure_ascii=False)`: object
key order is dict insertion order, and strings are stored verbatim
(non-ASCII characters preserved literally, not escaped). -/
inductive Json where
  | str (s : String)
  | num (n : Nat)
  | arr (xs : List Json)
  | obj (fields : List (String × Json))

/-- Metadata value serialization. -/
def metaValToJson : MetaVal → Json
  | .str s => .str s
  | .num n => .num n

/-- `doc.to_dict()` (= `dataclasses.asdict`): one object whose keys are the
dataclass fields in declaration order. -/
def docToJson (d : Document) : Json :=
  .obj [("source", .str d.source), ("url", .str d.url),
        ("title", .str d.title), ("content", .str d.content),
        ("metadata", .obj (d.metadata.map (fun p => (p.1, metaValToJson p.2))))]

/-- The artifact written by `save_documents`: a single JSON array with one
object per document, in order. -/
def saveDocuments (documents : List Document) : Json :=
  .arr (documents.map docToJson)

/-- `open(output_file, 'w')` then a single full write: the destination is
replaced wholesale with the new artifact. -/
def writeStore (store : String → Option Json) (path : String) (j : Json) :
    String → Option Json :=
  fun p => if p = path then some j else store p

/-- First value bound to a key in a JSON object. -/
def jsonLookup : List (String × Json) → String → Option Json
  | [], _ => none
  | (k, v) :: rest, key => if k = key then some v else jsonLookup rest key

/-- Key list of a JSON object (in stored order). -/
def jsonKeys : Json → List String
  | .obj fields => fields.map (fun p => p.1)
  | _ => []

/-- Read one serialized document record back: its `source`, `url`, `title`
and `content` string fields. -/
def parseDocRecord (j : Json) : Option (String × String × String × String) :=
  match j with
  | .obj fields =>
    match jsonLookup fields "source", jsonLookup fields "url",
        jsonLookup fields "title", jsonLookup fields "content" with
    | some (.str s), some (.str u), some (.str t), some (.str c) =>
      some (s, u, t, c)
    | _, _, _, _ => none
  | _ => none

/-- Parse a list of serialized records, failing if any record fails. -/
def parseRecords : List Json → Option (List (String × String × String × String))
  | [] => some []
  | j :: rest =>
    match parseDocRecord j, parseRecords rest with
    | some r, some rs => some (r :: rs)
    | _, _ => none

/-- Parse the persisted artifact back into its document records. -/
def parseArtifact (j : Json) :
    Option (List (String × String × String × String)) :=
  match j with
  | .arr xs => parseRecords xs
  | _ => none

/-- One `requests.get` call site of `data_ingestion.py`: where it occurs,
its HTTP method, and the `timeout=` argument it passes (if any). -/
structure HttpCallSite where
  caller : String
  method : String
  timeoutSeconds : Option Nat
deriving DecidableEq, Repr

/-- Every network call the program issues, transcribed from the source in
file order. -/
def networkCalls : List HttpCallSite :=
  [⟨"ReadTheDocsIngester._scrape_page", "GET", some 10⟩,
   ⟨"ReadTheDocsIngester._find_doc_links", "GET", some 10⟩,
   ⟨"GitHubIngester._get_readme (readme metadata)", "GET", some 10⟩,
   ⟨"GitHubIngester._get_readme (readme download_url)", "GET", none⟩,
   ⟨"GitHubIngester._get_docs_directory (directory listing)", "GET", some 10⟩,
   ⟨"GitHubIngester._get_docs_directory (file download_url)", "GET", none⟩,
   ⟨"WebsiteIngester._scrape_page", "GET", some 10⟩,
   ⟨"WebsiteIngester._find_links", "GET", some 10⟩]

/-- "First element whose ... in document order", the spec's phrasing of the
parser's find operation: first node of the pre-order listing satisfying the
predicate. -/
def firstElemSuchThat (p : HtmlTree → Bool) (s : Soup) : Option HtmlTree :=
  (preorderL s).find? p

/-- The content-keyword set exactly as the claim lists it. -/
def claimKeywords : List String :=
  ["content", "document", "main", "article", "body"]

/-- Modelled from the claim's words: an element whose class attribute
matches one of the keywords by case-insensitive substring match. -/
def claimClassMatchCI (t : HtmlTree) : Bool :=
  match t.attr "class" with
  | some c =>
    claimKeywords.any (fun k => isInfixB k.data (c.data.map Char.toLower))
  | none => false

/-- Modelled from the claim's words: the content-root priority the claim
asserts for both crawler variants — explicit main-role container, then
`<main>`, then `<article>`, then the first element whose class matches a
keyword case-insensitively, then the full body. -/
def claimSelectRoot (s : Soup) : Option HtmlTree :=
  ((firstElemSuchThat (fun t => t.attr "role" == some "main") s).orElse fun _ =>
    (firstElemSuchThat (fun t => t.tagIs "main") s).orElse fun _ =>
      (firstElemSuchThat (fun t => t.tagIs "article") s).orElse fun _ =>
        (firstElemSuchThat claimClassMatchCI s).orElse fun _ =>
          firstElemSuchThat (fun t => t.tagIs "body") s)

/-- Modelled from the claim's words: extracted content under the claimed
selection — text of the selected root, the empty string (with no error)
when no root exists. -/
def claimExtractContent (stripTags : List String) (page : Soup) : String :=
  let s := removeTagsL stripTags page
  match claimSelectRoot s with
  | some r => collapseNewlines (getTextStrip "\n" r)
  | none => ""

/-- The doc-site variant's selection chain re-expressed through
`firstElemSuchThat` with its actual (case-sensitive, `div`-restricted)
predicates, for the amended claim. -/
def amendedSelectRtd (s : Soup) : Option HtmlTree :=
  ((firstElemSuchThat isDivRoleMain s).orElse fun _ =>
    (firstElemSuchThat (fun t => t.tagIs "main") s).orElse fun _ =>
      (firstElemSuchThat (fun t => t.tagIs "article") s).orElse fun _ =>
        (firstElemSuchThat (isDivClassMatch ["content", "document", "body"]) s).orElse
          fun _ => firstElemSuchThat (fun t => t.tagIs "body") s)

/-- The website variant's selection chain re-expressed through
`firstElemSuchThat` (no main-role step, its own keyword set), for the
amended claim. -/
def amendedSelectWebsite (s : Soup) : Option HtmlTree :=
  ((firstElemSuchThat (fun t => t.tagIs "main") s).orElse fun _ =>
    (firstElemSuchThat (fun t => t.tagIs "article") s).orElse fun _ =>
      (firstElemSuchThat (isDivClassMatch ["content", "main", "article", "body"]) s).orElse
        fun _ => firstElemSuchThat (fun t => t.tagIs "body") s)

/-- A page whose only element is `<div class="Content">X</div>`: the
claimed case-insensitive match selects it, the code's case-sensitive
regex does not. -/
def pageClassUpper : Soup :=
  [.elem "div" [("class", "Content")] [.text "X"]]

theorem hasTripleNl_short (l : List Char) (h : l.length ≤ 2) :
    hasTripleNl l = false := by
  match l with
  | [] => rfl
  | [_] => rfl
  | [_, _] => rfl
  | _ :: _ :: _ :: _ => simp at h

theorem hasTripleNl_cons (a : Char) (l : List Char) (ha : ¬ a = '\n') :
    hasTripleNl (a :: l) = hasTripleNl l := by
  match l with
  | [] => rfl
  | [_] => rfl
  | b :: c :: rest =>
    rw [hasTripleNl]
    simp [ha]

theorem hasTripleNl_one_nl (c : Char) (X : List Char) (hc : ¬ c = '\n')
    (h : hasTripleNl (c :: X) = false) :
    hasTripleNl ('\n' :: c :: X) = false := by
  match X with
  | [] => rfl
  | x :: xs =>
    rw [hasTripleNl]
    simp [hc]
    simpa [hasTripleNl] using h

theorem hasTripleNl_two_nl (c : Char) (X : List Char) (hc : ¬ c = '\n')
    (h : hasTripleNl (c :: X) = false) :
    hasTripleNl ('\n' :: '\n' :: c :: X) = false := by
  rw [hasTripleNl]
  simp [hc]
  simpa [hasTripleNl] using hasTripleNl_one_nl c X hc h

theorem collapseNlAux_no_triple (l : List Char) :
    ∀ k, hasTripleNl (collapseNlAux k l) = false := by
  induction l with
  | nil =>
    intro k
    rw [collapseNlAux]
    apply hasTripleNl_short
    unfold emitNlRun
    split
    · simp
    · simp; omega
  | cons c rest ih =>
    intro k
    rw [collapseNlAux]
    by_cases hc : c = '\n'
    · rw [if_pos hc]; exact ih (k + 1)
    · rw [if_neg hc]
      have h1 : hasTripleNl (c :: collapseNlAux 0 rest) = false := by
        rw [hasTripleNl_cons c _ hc]; exact ih 0
      unfold emitNlRun
      by_cases h3 : 3 ≤ k
      · rw [if_pos h3]
        exact hasTripleNl_two_nl c _ hc h1
      · rw [if_neg h3]
        interval_cases k
        · simpa using h1
        · simpa using hasTripleNl_one_nl c _ hc h1
        · simpa using hasTripleNl_two_nl c _ hc h1

theorem collapseNewlines_no_triple (s : String) :
    hasTripleNl (collapseNewlines s).data = false :=
  collapseNlAux_no_triple s.data 0

/-- C6: every extracted Document's content contains no run of three or
more consecutive newlines — the website scraper's output always, the
doc-site scraper's output whenever it produces a document — and a content
string of 5 consecutive newlines normalizes to exactly 2. -/
theorem extracted_content_newlines_collapsed :
    (∀ url now page,
      hasTripleNl (websiteScrapePage url now page).content.data = false) ∧
    (∀ url now page d, rtdScrapePage url now page = some d →
      hasTripleNl d.content.data = false) ∧
    collapseNewlines ⟨List.replicate 5 '\n'⟩ = ⟨List.replicate 2 '\n'⟩ := by
  refine ⟨?_, ?_, ?_⟩
  · intro url now page
    exact collapseNewlines_no_triple _
  · intro url now page d h
    simp only [rtdScrapePage] at h
    cases hr : rtdSelectWithBody (removeTagsL rtdStripTags page) with
    | none => rw [hr] at h; simp at h
    | some root =>
      rw [hr] at h
      simp only [Option.some.injEq] at h
      rw [← h]
      exact collapseNewlines_no_triple _
  · decide

/-- C6 witness: concrete instance discharging the hypothesis of the second
conjunct on a page whose body holds the text "a". -/
theorem extracted_content_newlines_collapsed_witness :
    hasTripleNl
      (Document.mk "readthedocs" "u" "u" "a"
        [("scraped_at", .str "n"), ("content_length", .num 1)]).content.data
      = false :=
  extracted_content_newlines_collapsed.2.1 "u" "n"
    [.elem "body" [] [.text "a"]]
    (Document.mk "readthedocs" "u" "u" "a"
      [("scraped_at", .str "n"), ("content_length", .num 1)])
    (by decide)

mutual

theorem findFirstT_eq_find (p : HtmlTree → Bool) (t : HtmlTree) :
    findFirstT p t = (preorderT t).find? p := by
  cases t with
  | text s =>
    rw [findFirstT, preorderT]
    by_cases h : p (.text s) <;> simp [List.find?, h]
  | elem tg a cs =>
    rw [findFirstT, preorderT]
    by_cases h : p (.elem tg a cs)
    · simp [List.find?, h]
    · simp [List.find?, h, findFirstL_eq_find p cs]

theorem findFirstL_eq_find (p : HtmlTree → Bool) (l : List HtmlTree) :
    findFirstL p l = (preorderL l).find? p := by
  cases l with
  | nil => rfl
  | cons c cs =>
    rw [findFirstL, preorderL, List.find?_append, findFirstT_eq_find p c,
      findFirstL_eq_find p cs]
    cases (preorderT c).find? p <;> simp

end

theorem soupFind_eq_firstElem (p : HtmlTree → Bool) (s : Soup) :
    soupFind p s = firstElemSuchThat p s :=
  findFirstL_eq_find p s

/-- C5 counterexample: on `<div class="Content">X</div>` the claimed
selection (case-insensitive class keyword match, same priority in both
variants, empty content with no error when nothing matches) picks the div
and yields "X", but the website scraper extracts "" (its class regex is
case-sensitive and there is no body), and the doc-site scraper raises
(produces no document) instead of yielding empty content. -/
theorem content_root_priority_counterexample :
    (websiteScrapePage "u" "n" pageClassUpper).content ≠
      claimExtractContent websiteStripTags pageClassUpper ∧
    rtdScrapePage "u" "n" pageClassUpper = none := by
  constructor
  · decide
  · rfl

/-- C5 (amended): the doc-site variant selects the first (document-order)
div with an explicit main role, else the first `<main>`, else the first
`<article>`, else the first div whose class attribute contains — by
case-sensitive substring match — one of "content"/"document"/"body", else
the body, and produces no document (the extraction raises) when none
exists; the website variant has no main-role step, uses the keyword set
"content"/"main"/"article"/"body", and yields empty content with no error
when none exists. -/
theorem content_root_selection_amended :
    (∀ s : Soup, rtdSelectWithBody s = amendedSelectRtd s) ∧
    (∀ s : Soup, websiteSelectWithBody s = amendedSelectWebsite s) ∧
    (∀ url now page,
      websiteSelectWithBody (removeTagsL websiteStripTags page) = none →
      (websiteScrapePage url now page).content = "") ∧
    (∀ url now page,
      rtdSelectWithBody (removeTagsL rtdStripTags page) = none →
      rtdScrapePage url now page = none) := by
  refine ⟨?_, ?_, ?_, ?_⟩
  · intro s
    simp only [rtdSelectWithBody, rtdSelectContent, amendedSelectRtd,
      soupFind_eq_firstElem]
    cases firstElemSuchThat isDivRoleMain s <;>
      cases firstElemSuchThat (fun t => t.tagIs "main") s <;>
        cases firstElemSuchThat (fun t => t.tagIs "article") s <;>
          simp
  · intro s
    simp only [websiteSelectWithBody, websiteSelectContent,
      amendedSelectWebsite, soupFind_eq_firstElem]
    cases firstElemSuchThat (fun t => t.tagIs "main") s <;>
      cases firstElemSuchThat (fun t => t.tagIs "article") s <;>
        simp
  · intro url now page h
    simp only [websiteScrapePage]
    rw [h]
    rfl
  · intro url now page h
    simp only [rtdScrapePage]
    rw [h]

/-- C5 witness: on the empty page neither variant finds a content root;
the website scraper yields empty content, the doc-site scraper yields no
document. -/
theorem content_root_selection_amended_witness :
    (websiteScrapePage "u" "n" ([] : Soup)).content = "" ∧
    rtdScrapePage "u" "n" ([] : Soup) = none :=
  ⟨content_root_selection_amended.2.2.1 "u" "n" [] (by rfl),
   content_root_selection_amended.2.2.2 "u" "n" [] (by rfl)⟩

theorem rtdScrapePage_url (u now : String) (page : Soup) (d : Document)
    (h : rtdScrapePage u now page = some d) : d.url = u := by
  simp only [rtdScrapePage] at h
  cases hr : rtdSelectWithBody (removeTagsL rtdStripTags page) with
  | none => rw [hr] at h; simp at h
  | some root =>
    rw [hr] at h
    simp only [Option.some.injEq] at h
    rw [← h]

theorem rtdScrapeReq_url (web : Web) (now u : String) (d : Document)
    (h : rtdScrapeReq web now u = some d) : d.url = u := by
  simp only [rtdScrapeReq] at h
  split at h
  · simp at h
  · split at h
    · exact rtdScrapePage_url u now _ d h
    · simp at h

theorem websiteScrapeReq_url (web : Web) (now u : String) (d : Document)
    (h : websiteScrapeReq web now u = some d) : d.url = u := by
  simp only [websiteScrapeReq] at h
  split at h
  · simp at h
  · split at h
    · simp only [Option.some.injEq] at h
      rw [← h]
      rfl
    · simp at h

theorem rtdCrawl_length_le (scrape : String → Option Document)
    (findLinks : String → List String) (maxPages : Nat) :
    ∀ fuel visited toVisit documents, documents.length ≤ maxPages →
      (rtdCrawl scrape findLinks maxPages fuel visited toVisit
        documents).1.length ≤ maxPages := by
  intro fuel
  induction fuel with
  | zero => intro visited toVisit documents h; exact h
  | succ fuel ih =>
    intro visited toVisit documents h
    cases toVisit with
    | nil => exact h
    | cons url rest =>
      simp only [rtdCrawl]
      by_cases hb : documents.length < maxPages
      · simp only [if_pos hb]
        by_cases hv : url ∈ visited
        · simp only [if_pos hv]; exact ih _ _ _ h
        · simp only [if_neg hv]
          cases hs : scrape url with
          | none => exact ih _ _ _ h
          | some doc =>
            apply ih
            simp only [List.length_append, List.length_cons, List.length_nil]
            omega
      · simp only [if_neg hb]; exact h

theorem websiteCrawl_length_le (scrape : String → Option Document)
    (findLinks : String → List String) (netloc : String → String)
    (allowedDomains : List String) (maxPages : Nat) :
    ∀ fuel visited toVisit documents, documents.length ≤ maxPages →
      (websiteCrawl scrape findLinks netloc allowedDomains maxPages fuel
        visited toVisit documents).1.length ≤ maxPages := by
  intro fuel
  induction fuel with
  | zero => intro visited toVisit documents h; exact h
  | succ fuel ih =>
    intro visited toVisit documents h
    cases toVisit with
    | nil => exact h
    | cons url rest =>
      simp only [websiteCrawl]
      by_cases hb : documents.length < maxPages
      · simp only [if_pos hb]
        by_cases hv : url ∈ visited
        · simp only [if_pos hv]; exact ih _ _ _ h
        · simp only [if_neg hv]
          by_cases hd : netloc url ∈ allowedDomains
          · simp only [if_pos hd]
            cases hs : scrape url with
            | none => exact ih _ _ _ h
            | some doc =>
              apply ih
              simp only [List.length_append, List.length_cons, List.length_nil]
              omega
          · simp only [if_neg hd]; exact ih _ _ _ h
      · simp only [if_neg hb]; exact h

theorem rtdCrawl_nodup (scrape : String → Option Document)
    (findLinks : String → List String) (maxPages : Nat)
    (hscrape : ∀ u d, scrape u = some d → d.url = u) :
    ∀ fuel visited toVisit documents,
      visited.Nodup → (documents.map Document.url).Nodup →
      (∀ d ∈ documents, d.url ∈ visited) →
      (rtdCrawl scrape findLinks maxPages fuel visited toVisit
          documents).2.Nodup ∧
        ((rtdCrawl scrape findLinks maxPages fuel visited toVisit
          documents).1.map Document.url).Nodup ∧
        ∀ d ∈ (rtdCrawl scrape findLinks maxPages fuel visited toVisit
          documents).1,
          d.url ∈ (rtdCrawl scrape findLinks maxPages fuel visited toVisit
            documents).2 := by
  intro fuel
  induction fuel with
  | zero => intro visited toVisit documents h1 h2 h3; exact ⟨h1, h2, h3⟩
  | succ fuel ih =>
    intro visited toVisit documents h1 h2 h3
    cases toVisit with
    | nil => exact ⟨h1, h2, h3⟩
    | cons url rest =>
      simp only [rtdCrawl]
      by_cases hb : documents.length < maxPages
      · simp only [if_pos hb]
        by_cases hv : url ∈ visited
        · simp only [if_pos hv]; exact ih _ _ _ h1 h2 h3
        · simp only [if_neg hv]
          cases hs : scrape url with
          | none =>
            apply ih
            · exact List.nodup_cons.mpr ⟨hv, h1⟩
            · exact h2
            · intro d hd; exact List.mem_cons_of_mem _ (h3 d hd)
          | some doc =>
            have hu : doc.url = url := hscrape url doc hs
            apply ih
            · exact List.nodup_cons.mpr ⟨hv, h1⟩
            · rw [List.map_append, List.map_singleton]
              apply List.Nodup.append h2 (List.nodup_singleton _)
              intro x hx hx'
              rw [List.mem_singleton] at hx'
              obtain ⟨e, he, heu⟩ := List.mem_map.mp hx
              rw [hx', hu] at heu
              exact hv (heu ▸ h3 e he)
            · intro d hd
              rcases List.mem_append.mp hd with hmem | hmem
              · exact List.mem_cons_of_mem _ (h3 d hmem)
              · rw [List.mem_singleton] at hmem
                rw [hmem, hu]
                exact List.mem_cons_self _ _
      · simp only [if_neg hb]; exact ⟨h1, h2, h3⟩

theorem websiteCrawl_nodup (scrape : String → Option Document)
    (findLinks : String → List String) (netloc : String → String)
    (allowedDomains : List String) (maxPages : Nat)
    (hscrape : ∀ u d, scrape u = some d → d.url = u) :
    ∀ fuel visited toVisit documents,
      visited.Nodup → (documents.map Document.url).Nodup →
      (∀ d ∈ documents, d.url ∈ visited) →
      (websiteCrawl scrape findLinks netloc allowedDomains maxPages fuel
          visited toVisit documents).2.Nodup ∧
        ((websiteCrawl scrape findLinks netloc allowedDomains maxPages fuel
          visited toVisit documents).1.map Document.url).Nodup ∧
        ∀ d ∈ (websiteCrawl scrape findLinks netloc allowedDomains maxPages
          fuel visited toVisit documents).1,
          d.url ∈ (websiteCrawl scrape findLinks netloc allowedDomains
            maxPages fuel visited toVisit documents).2 := by
  intro fuel
  induction fuel with
  | zero => intro visited toVisit documents h1 h2 h3; exact ⟨h1, h2, h3⟩
  | succ fuel ih =>
    intro visited toVisit documents h1 h2 h3
    cases toVisit with
    | nil => exact ⟨h1, h2, h3⟩
    | cons url rest =>
      simp only [websiteCrawl]
      by_cases hb : documents.length < maxPages
      · simp only [if_pos hb]
        by_cases hv : url ∈ visited
        · simp only [if_pos hv]; exact ih _ _ _ h1 h2 h3
        · simp only [if_neg hv]
          by_cases hdom : netloc url ∈ allowedDomains
          · simp only [if_pos hdom]
            cases hs : scrape url with
            | none =>
              apply ih
              · exact List.nodup_cons.mpr ⟨hv, h1⟩
              · exact h2
              · intro d hd; exact List.mem_cons_of_mem _ (h3 d hd)
            | some doc =>
              have hu : doc.url = url := hscrape url doc hs
              apply ih
              · exact List.nodup_cons.mpr ⟨hv, h1⟩
              · rw [List.map_append, List.map_singleton]
                apply List.Nodup.append h2 (List.nodup_singleton _)
                intro x hx hx'
                rw [List.mem_singleton] at hx'
                obtain ⟨e, he, heu⟩ := List.mem_map.mp hx
                rw [hx', hu] at heu
                exact hv (heu ▸ h3 e he)
              · intro d hd
                rcases List.mem_append.mp hd with hmem | hmem
                · exact List.mem_cons_of_mem _ (h3 d hmem)
                · rw [List.mem_singleton] at hmem
                  rw [hmem, hu]
                  exact List.mem_cons_self _ _
          · simp only [if_neg hdom]; exact ih _ _ _ h1 h2 h3
      · simp only [if_neg hb]; exact ⟨h1, h2, h3⟩

theorem websiteCrawl_domains (scrape : String → Option Document)
    (findLinks : String → List String) (netloc : String → String)
    (allowedDomains : List String) (maxPages : Nat)
    (hscrape : ∀ u d, scrape u = some d → d.url = u) :
    ∀ fuel visited toVisit documents,
      (∀ u ∈ visited, netloc u ∈ allowedDomains) →
      (∀ d ∈ documents, netloc d.url ∈ allowedDomains) →
      (∀ u ∈ (websiteCrawl scrape findLinks netloc allowedDomains maxPages
          fuel visited toVisit documents).2,
        netloc u ∈ allowedDomains) ∧
        ∀ d ∈ (websiteCrawl scrape findLinks netloc allowedDomains maxPages
          fuel visited toVisit documents).1,
          netloc d.url ∈ allowedDomains := by
  intro fuel
  induction fuel with
  | zero => intro visited toVisit documents h1 h2; exact ⟨h1, h2⟩
  | succ fuel ih =>
    intro visited toVisit documents h1 h2
    cases toVisit with
    | nil => exact ⟨h1, h2⟩
    | cons url rest =>
      simp only [websiteCrawl]
      by_cases hb : documents.length < maxPages
      · simp only [if_pos hb]
        by_cases hv : url ∈ visited
        · simp only [if_pos hv]; exact ih _ _ _ h1 h2
        · simp only [if_neg hv]
          by_cases hdom : netloc url ∈ allowedDomains
          · simp only [if_pos hdom]
            cases hs : scrape url with
            | none =>
              apply ih
              · intro u hu
                rcases List.mem_cons.mp hu with h | h
                · rw [h]; exact hdom
                · exact h1 u h
              · exact h2
            | some doc =>
              have hu : doc.url = url := hscrape url doc hs
              apply ih
              · intro u humem
                rcases List.mem_cons.mp humem with h | h
                · rw [h]; exact hdom
                · exact h1 u h
              · intro d hd
                rcases List.mem_append.mp hd with hmem | hmem
                · exact h2 d hmem
                · rw [List.mem_singleton] at hmem
                  rw [hmem, hu]
                  exact hdom
          · simp only [if_neg hdom]; exact ih _ _ _ h1 h2
      · simp only [if_neg hb]; exact ⟨h1, h2⟩

/-- C1: in both crawl variants the produced documents never exceed
`max_pages` — as a loop invariant (any reachable loop state) and at the
`get_all_docs` entry points — and once the page budget is reached the loop
returns the collected documents immediately, discarding the remaining
queue, with no error. -/
theorem crawl_page_budget :
    (∀ scrape findLinks maxPages fuel visited toVisit documents,
      documents.length ≤ maxPages →
      (rtdCrawl scrape findLinks maxPages fuel visited toVisit
        documents).1.length ≤ maxPages) ∧
    (∀ scrape findLinks netloc allowedDomains maxPages fuel visited toVisit
        documents,
      documents.length ≤ maxPages →
      (websiteCrawl scrape findLinks netloc allowedDomains maxPages fuel
        visited toVisit documents).1.length ≤ maxPages) ∧
    (∀ web ujoin netloc baseUrl maxPages now fuel,
      (rtdGetAllDocs web ujoin netloc baseUrl maxPages now
        fuel).1.length ≤ maxPages) ∧
    (∀ web ujoin netloc cfg startUrl maxPages now fuel,
      (websiteGetAllDocs web ujoin netloc cfg startUrl maxPages now
        fuel).1.length ≤ maxPages) ∧
    (∀ scrape findLinks maxPages fuel visited url rest documents,
      maxPages ≤ documents.length →
      rtdCrawl scrape findLinks maxPages (fuel + 1) visited (url :: rest)
        documents = (documents, visited)) ∧
    (∀ scrape findLinks netloc allowedDomains maxPages fuel visited url rest
        documents,
      maxPages ≤ documents.length →
      websiteCrawl scrape findLinks netloc allowedDomains maxPages (fuel + 1)
        visited (url :: rest) documents = (documents, visited)) := by
  refine ⟨?_, ?_, ?_, ?_, ?_, ?_⟩
  · intro scrape findLinks maxPages fuel visited toVisit documents h
    exact rtdCrawl_length_le scrape findLinks maxPages fuel visited toVisit
      documents h
  · intro scrape findLinks netloc allowedDomains maxPages fuel visited
      toVisit documents h
    exact websiteCrawl_length_le scrape findLinks netloc allowedDomains
      maxPages fuel visited toVisit documents h
  · intro web ujoin netloc baseUrl maxPages now fuel
    exact rtdCrawl_length_le _ _ maxPages fuel _ _ _ (Nat.zero_le _)
  · intro web ujoin netloc cfg startUrl maxPages now fuel
    exact websiteCrawl_length_le _ _ _ _ maxPages fuel _ _ _ (Nat.zero_le _)
  · intro scrape findLinks maxPages fuel visited url rest documents h
    simp only [rtdCrawl]
    rw [if_neg (by omega)]
  · intro scrape findLinks netloc allowedDomains maxPages fuel visited url
      rest documents h
    simp only [websiteCrawl]
    rw [if_neg (by omega)]

/-- C1 witness: budget-reached stop on concrete states (and the bound at a
concrete crawl). -/
theorem crawl_page_budget_witness :
    (rtdCrawl (fun _ => none) (fun _ => []) 2 3 [] ["a"] []).1.length ≤ 2 ∧
    rtdCrawl (fun _ => none) (fun _ => []) 0 1 [] ["a"] [] = ([], []) ∧
    websiteCrawl (fun _ => none) (fun _ => []) (fun u => u) ["a"] 0 1 []
      ["a"] [] = ([], []) :=
  ⟨crawl_page_budget.1 _ _ 2 3 [] ["a"] [] (by decide),
   crawl_page_budget.2.2.2.2.1 _ _ 0 0 [] "a" [] [] (by decide),
   crawl_page_budget.2.2.2.2.2 _ _ _ ["a"] 0 0 [] "a" [] [] (by decide)⟩

/-- C2: a crawl never visits a url twice nor emits two documents with the
same url — the final visited set and the emitted url sequence of both
`get_all_docs` entry points are duplicate-free — and a popped url that is
already visited is skipped (the loop continues on the rest of the queue
with unchanged state). -/
theorem crawl_no_duplicate_urls :
    (∀ web ujoin netloc baseUrl maxPages now fuel,
      (rtdGetAllDocs web ujoin netloc baseUrl maxPages now fuel).2.Nodup ∧
        ((rtdGetAllDocs web ujoin netloc baseUrl maxPages now fuel).1.map
          Document.url).Nodup) ∧
    (∀ web ujoin netloc cfg startUrl maxPages now fuel,
      (websiteGetAllDocs web ujoin netloc cfg startUrl maxPages now
          fuel).2.Nodup ∧
        ((websiteGetAllDocs web ujoin netloc cfg startUrl maxPages now
          fuel).1.map Document.url).Nodup) ∧
    (∀ scrape findLinks maxPages fuel visited url rest documents,
      url ∈ visited → documents.length < maxPages →
      rtdCrawl scrape findLinks maxPages (fuel + 1) visited (url :: rest)
          documents =
        rtdCrawl scrape findLinks maxPages fuel visited rest documents) ∧
    (∀ scrape findLinks netloc allowedDomains maxPages fuel visited url rest
        documents,
      url ∈ visited → documents.length < maxPages →
      websiteCrawl scrape findLinks netloc allowedDomains maxPages (fuel + 1)
          visited (url :: rest) documents =
        websiteCrawl scrape findLinks netloc allowedDomains maxPages fuel
          visited rest documents) := by
  refine ⟨?_, ?_, ?_, ?_⟩
  · intro web ujoin netloc baseUrl maxPages now fuel
    have h := rtdCrawl_nodup (rtdScrapeReq web now)
      (rtdFindDocLinks web ujoin netloc (rstripSlash baseUrl)) maxPages
      (fun u d => rtdScrapeReq_url web now u d) fuel [] [rstripSlash baseUrl]
      [] List.nodup_nil (by simp) (by simp)
    exact ⟨h.1, h.2.1⟩
  · intro web ujoin netloc cfg startUrl maxPages now fuel
    have h := websiteCrawl_nodup (websiteScrapeReq web now)
      (websiteFindLinks web ujoin netloc
        (websiteAllowedDomains cfg netloc startUrl)) netloc
      (websiteAllowedDomains cfg netloc startUrl) maxPages
      (fun u d => websiteScrapeReq_url web now u d) fuel [] [startUrl] []
      List.nodup_nil (by simp) (by simp)
    exact ⟨h.1, h.2.1⟩
  · intro scrape findLinks maxPages fuel visited url rest documents hv hb
    simp only [rtdCrawl]
    rw [if_pos hb, if_pos hv]
  · intro scrape findLinks netloc allowedDomains maxPages fuel visited url
      rest documents hv hb
    simp only [websiteCrawl]
    rw [if_pos hb, if_pos hv]

/-- C2 witness: the skip equations at a concrete visited url. -/
theorem crawl_no_duplicate_urls_witness :
    rtdCrawl (fun _ => none) (fun _ => []) 5 1 ["a"] ["a"] [] =
        rtdCrawl (fun _ => none) (fun _ => []) 5 0 ["a"] [] [] ∧
      websiteCrawl (fun _ => none) (fun _ => []) (fun u => u) ["a"] 5 1 ["a"]
          ["a"] [] =
        websiteCrawl (fun _ => none) (fun _ => []) (fun u => u) ["a"] 5 0
          ["a"] [] [] :=
  ⟨crawl_no_duplicate_urls.2.2.1 _ _ 5 0 ["a"] "a" [] [] (by decide)
      (by decide),
   crawl_no_duplicate_urls.2.2.2 _ _ _ ["a"] 5 0 ["a"] "a" [] [] (by decide)
      (by decide)⟩

/-- C3: in a website crawl with any configured allow-list and seed, every
emitted Document has a url whose domain is in the allow-list, and every
url the crawl fetches (equivalently: every url it marks visited — a url is
marked immediately before its fetch and the crawl starts with an empty
visited set) has a domain in the allow-list, so an out-of-allow-list url
is never fetched. -/
theorem website_crawl_domain_allowlist :
    ∀ web ujoin netloc cfg startUrl maxPages now fuel,
      (∀ d ∈ (websiteGetAllDocs web ujoin netloc cfg startUrl maxPages now
          fuel).1,
        netloc d.url ∈ websiteAllowedDomains cfg netloc startUrl) ∧
      ∀ u ∈ (websiteGetAllDocs web ujoin netloc cfg startUrl maxPages now
          fuel).2,
        netloc u ∈ websiteAllowedDomains cfg netloc startUrl := by
  intro web ujoin netloc cfg startUrl maxPages now fuel
  have h := websiteCrawl_domains (websiteScrapeReq web now)
    (websiteFindLinks web ujoin netloc
      (websiteAllowedDomains cfg netloc startUrl)) netloc
    (websiteAllowedDomains cfg netloc startUrl) maxPages
    (fun u d => websiteScrapeReq_url web now u d) fuel [] [startUrl] []
    (by simp) (by simp)
  exact ⟨h.2, h.1⟩

/-- C3 witness: a one-page crawl (every url resolving to domain "d", the
default allow-list) emits a document whose url domain is allowed. -/
theorem website_crawl_domain_allowlist_witness :
    "d" ∈ websiteAllowedDomains none (fun _ => "d") "s" :=
  (website_crawl_domain_allowlist
      (fun _ => some (200, [.elem "body" [] [.text "x"]])) (fun _ b => b)
      (fun _ => "d") none "s" 1 "n" 2).1
    (Document.mk "website" "s" "s" "x"
      [("scraped_at", .str "n"), ("content_length", .num 1)])
    (by decide)

/-- C4 counterexample: not every network call supplies `timeout=10` — the
readme `download_url` fetch (and likewise the docs-file `download_url`
fetch) passes no timeout at all. -/
theorem network_timeout_counterexample :
    ¬ ∀ c ∈ networkCalls, c.timeoutSeconds = some 10 := by decide

/-- C4 (amended): every network call the program issues is a blocking HTTP
GET; all of them supply a fixed `timeout=10` except the two raw-content
fetches of a `download_url` (readme download and docs-file download),
which supply no timeout. -/
theorem network_calls_get_timeout :
    ∀ c ∈ networkCalls,
      c.method = "GET" ∧
        (c.timeoutSeconds = some 10 ∨
          (c.caller ∈ ["GitHubIngester._get_readme (readme download_url)",
              "GitHubIngester._get_docs_directory (file download_url)"] ∧
            c.timeoutSeconds = none)) := by decide

/-- C4 witness: the first call site is a GET with timeout 10. -/
theorem network_calls_get_timeout_witness :
    (HttpCallSite.mk "ReadTheDocsIngester._scrape_page" "GET"
        (some 10)).method = "GET" ∧
      ((HttpCallSite.mk "ReadTheDocsIngester._scrape_page" "GET"
          (some 10)).timeoutSeconds = some 10 ∨
        ((HttpCallSite.mk "ReadTheDocsIngester._scrape_page" "GET"
            (some 10)).caller ∈
            ["GitHubIngester._get_readme (readme download_url)",
              "GitHubIngester._get_docs_directory (file download_url)"] ∧
          (HttpCallSite.mk "ReadTheDocsIngester._scrape_page" "GET"
            (some 10)).timeoutSeconds = none)) :=
  network_calls_get_timeout
    (HttpCallSite.mk "ReadTheDocsIngester._scrape_page" "GET" (some 10))
    (by decide)

theorem parseRecords_docs (documents : List Document) :
    parseRecords (documents.map docToJson) =
      some (documents.map fun d => (d.source, d.url, d.title, d.content)) := by
  induction documents with
  | nil => rfl
  | cons d rest ih =>
    have hd : parseDocRecord (docToJson d) =
        some (d.source, d.url, d.title, d.content) := rfl
    simp [parseRecords, hd, ih]

/-- C7: serializing N Documents and parsing the artifact back yields
exactly the N records' source/url/title/content fields, in order and
verbatim (strings are stored literally in the artifact, so non-ASCII
characters are preserved); each serialized object's keys are
source, url, title, content, metadata in that order; writing the artifact
replaces whatever was previously stored at the destination. -/
theorem persistence_round_trip :
    ∀ documents : List Document,
      parseArtifact (saveDocuments documents) =
        some (documents.map fun d => (d.source, d.url, d.title, d.content)) ∧
      (∀ d ∈ documents, jsonKeys (docToJson d) =
        ["source", "url", "title", "content", "metadata"]) ∧
      ∀ store path, writeStore store path (saveDocuments documents) path =
        some (saveDocuments documents) := by
  intro documents
  refine ⟨?_, ?_, ?_⟩
  · exact parseRecords_docs documents
  · intro d _
    rfl
  · intro store path
    simp [writeStore]

/-- C7 witness: round trip on one concrete document (with a non-ASCII
content character). -/
theorem persistence_round_trip_witness :
    jsonKeys (docToJson (Document.mk "website" "u" "t" "é" [])) =
      ["source", "url", "title", "content", "metadata"] :=
  (persistence_round_trip [Document.mk "website" "u" "t" "é" []]).2.1
    (Document.mk "website" "u" "t" "é" []) (by decide)

/-- C8: when the readme API call fails (yields no document), the
repository fetch still runs the documentation-directory step and returns
exactly its documents; the wiki step always contributes the empty
sequence. -/
theorem readme_failure_isolated :
    ∀ env owner repoName now fuel,
      ghGetReadme env owner repoName now = none →
      ghGetAllDocs env owner repoName now fuel =
          ghDocsDirectory env owner repoName now fuel "docs" ∧
        ghGetWikiPages = [] := by
  intro env owner repoName now fuel h
  constructor
  · simp [ghGetAllDocs, h, ghGetWikiPages]
  · rfl

/-- C8 witness: an environment whose every call fails. -/
theorem readme_failure_isolated_witness :
    ghGetAllDocs ⟨none, fun _ => none, fun _ => none⟩ "o" "r" "n" 1 =
      ghDocsDirectory ⟨none, fun _ => none, fun _ => none⟩ "o" "r" "n" 1
        "docs" :=
  (readme_failure_isolated ⟨none, fun _ => none, fun _ => none⟩ "o" "r" "n" 1
    rfl).1

/-- C9: a 404 directory listing yields the empty sequence with no
exception; any other non-success (≥ 400) listing status likewise empties
only that directory's contribution; and a `dir` entry's (possibly empty)
recursive contribution is concatenated with the rest of its parent's
items, so a failed subdirectory aborts nothing beyond itself. -/
theorem docs_directory_status_handling :
    (∀ env owner repoName now fuel path resp,
      env.listing path = some resp → resp.status = 404 →
      ghDocsDirectory env owner repoName now fuel path = []) ∧
    (∀ env owner repoName now fuel path resp,
      env.listing path = some resp → 400 ≤ resp.status →
      ghDocsDirectory env owner repoName now fuel path = []) ∧
    ∀ recurse fetchText owner repoName now item rest,
      item.type = "dir" →
      ghDocsItems recurse fetchText owner repoName now (item :: rest) =
        recurse item.path ++
          ghDocsItems recurse fetchText owner repoName now rest := by
  refine ⟨?_, ?_, ?_⟩
  · intro env owner repoName now fuel path resp h h404
    cases fuel with
    | zero => rfl
    | succ fuel =>
      simp only [ghDocsDirectory, h]
      rw [if_pos h404]
  · intro env owner repoName now fuel path resp h hge
    cases fuel with
    | zero => rfl
    | succ fuel =>
      simp only [ghDocsDirectory, h]
      by_cases h404 : resp.status = 404
      · rw [if_pos h404]
      · rw [if_neg h404, if_pos hge]
  · intro recurse fetchText owner repoName now item rest hdir
    simp only [ghDocsItems]
    have hnf : ¬ (item.type = "file" ∧ ghIsDocFileName item.name) := by
      intro hc
      rw [hdir] at hc
      exact absurd hc.1 (by decide)
    rw [if_neg hnf, if_pos hdir]

/-- C9 witness: concrete 404 and 500 listings, and a concrete `dir`
entry. -/
theorem docs_directory_status_handling_witness :
    ghDocsDirectory ⟨none, fun _ => none, fun _ => some ⟨404, []⟩⟩ "o" "r"
        "n" 3 "docs" = [] ∧
      ghDocsDirectory ⟨none, fun _ => none, fun _ => some ⟨500, []⟩⟩ "o" "r"
        "n" 3 "docs" = [] ∧
      ghDocsItems (fun _ => []) (fun _ => none) "o" "r" "n"
          [GhItem.mk "dir" "x" "p" "d" "h"] =
        (fun _ => ([] : List Document)) "p" ++
          ghDocsItems (fun _ => []) (fun _ => none) "o" "r" "n" [] :=
  ⟨docs_directory_status_handling.1 ⟨none, fun _ => none,
      fun _ => some ⟨404, []⟩⟩ "o" "r" "n" 3 "docs" ⟨404, []⟩ rfl rfl,
   docs_directory_status_handling.2.1 ⟨none, fun _ => none,
      fun _ => some ⟨500, []⟩⟩ "o" "r" "n" 3 "docs" ⟨500, []⟩ rfl
     (by decide),
   docs_directory_status_handling.2.2 (fun _ => []) (fun _ => none) "o" "r"
     "n" (GhItem.mk "dir" "x" "p" "d" "h") [] rfl⟩

/-- C10: every Document a frontier-based scraper produces carries metadata
holding exactly the capture timestamp and a content_length equal to the
length of its content string. -/
theorem scraped_metadata_content_length :
    (∀ url now page,
      (websiteScrapePage url now page).metadata =
        [("scraped_at", .str now),
          ("content_length",
            .num (websiteScrapePage url now page).content.length)]) ∧
    ∀ url now page d, rtdScrapePage url now page = some d →
      d.metadata =
        [("scraped_at", .str now), ("content_length", .num d.content.length)] := by
  constructor
  · intro url now page
    rfl
  · intro url now page d h
    simp only [rtdScrapePage] at h
    cases hr : rtdSelectWithBody (removeTagsL rtdStripTags page) with
    | none => rw [hr] at h; simp at h
    | some root =>
      rw [hr] at h
      simp only [Option.some.injEq] at h
      rw [← h]

/-- C10 witness: concrete doc-site scrape of a body with text "a". -/
theorem scraped_metadata_content_length_witness :
    (Document.mk "readthedocs" "u" "u" "a"
        [("scraped_at", .str "n"), ("content_length", .num 1)]).metadata =
      [("scraped_at", .str "n"),
        ("content_length",
          .num (Document.mk "readthedocs" "u" "u" "a"
            [("scraped_at", .str "n"),
              ("content_length", .num 1)]).content.length)] :=
  scraped_metadata_content_length.2 "u" "n" [.elem "body" [] [.text "a"]]
    (Document.mk "readthedocs" "u" "u" "a"
      [("scraped_at", .str "n"), ("content_length", .num 1)])
    (by decide)
